import Mathlib

/-!
# Error descriptions (`src/hci/strerror.c`)

A shallow embedding of `find_error`, `find_closest_error` and `strerror`,
and the properties of the lookup and of the rendered text.

Conventions of the embedding:

* a C `int` is an `Int`; the bitwise operators and the negation act on its
  32-bit two's-complement pattern (`toUnsigned`) and give back an `int`
  (`toSigned`);
* a C string is the list of its characters (the bytes before the
  terminator);
* the error table delimited by `errortab_start` / `errortab_end` is a list of
  entries in storage order; a returned pointer into the table is the entry it
  points to;
* `strerror` is the text left in the static buffer `errbuf`; `strerror_buf`
  follows the bytes of that buffer from call to call.
-/

namespace Strerror

/-! ## Data model -/

/-- An entry of the error table (`struct errortab`): an error number and its
description. -/
structure errortab where
  errno : Int
  text : List Char
deriving DecidableEq

/-- The smallest C `int`. -/
def INT_MIN : Int := -2147483648

/-- The largest C `int`. -/
def INT_MAX : Int := 2147483647

/-- The values a C `int` can hold. -/
def isInt (x : Int) : Prop := INT_MIN ≤ x ∧ x ≤ INT_MAX

instance (x : Int) : Decidable (isInt x) := by
  unfold isInt; exact inferInstance

/-! ## Machine arithmetic on `int` -/

/-- The 32-bit pattern of an `int` (its conversion to `unsigned int`). -/
def toUnsigned (x : Int) : Nat := (x % 4294967296).toNat

/-- The `int` with a given 32-bit pattern (two's complement). -/
def toSigned (n : Nat) : Int :=
  if n % 4294967296 < 2147483648 then ((n % 4294967296 : Nat) : Int)
  else ((n % 4294967296 : Nat) : Int) - 4294967296

/-- The C operator `^` on `int`. -/
def xor32 (a b : Int) : Int := toSigned (toUnsigned a ^^^ toUnsigned b)

/-- The C operator `&` on `int`. -/
def and32 (a b : Int) : Int := toSigned (toUnsigned a &&& toUnsigned b)

/-- The C unary `-` on `int`, wrapping around on 32 bits. -/
def neg32 (a : Int) : Int := toSigned (toUnsigned (-a))

/-! ## The lookup -/

/-- The test of `find_error`: `( ( errortab->errno ^ errno ) & mask ) == 0`. -/
def mask_eq (e : errortab) (errno mask : Int) : Prop :=
  and32 (xor32 e.errno errno) mask = 0

instance (e : errortab) (errno mask : Int) : Decidable (mask_eq e errno mask) := by
  unfold mask_eq; exact inferInstance

/-- The function `find_error`: the scan of the table from `errortab_start` to
`errortab_end`, returning the first entry that passes the test, or `NULL`. -/
def find_error : List errortab → Int → Int → Option errortab
  | [], _, _ => none
  | e :: rest, errno, mask =>
    if mask_eq e errno mask then some e else find_error rest errno mask

/-- The function `find_closest_error`: the three lookups, in order. The
constant `0xffff00ff` does not fit an `int`; passed as the `int` parameter
`mask` it is the `int` of the same 32-bit pattern. -/
def find_closest_error (tab : List errortab) (errno : Int) : Option errortab :=
  match find_error tab errno 0x7fffffff with
  | some e => some e
  | none =>
    match find_error tab errno 0x0000ffff with
    | some e => some e
    | none =>
      match find_error tab (and32 errno 0x000000ff) (toSigned 0xffff00ff) with
      | some e => some e
      | none => none

/-! ## The rendering -/

/-- The digits of the hexadecimal conversion. -/
def hexChars : List Char := "0123456789abcdef".toList

/-- One hexadecimal digit. -/
def hexDigit (d : Nat) : Char := hexChars.getD d '0'

/-- The `w` low hexadecimal digits of `v`, most significant first. -/
def hexDigits : Nat → Nat → List Char
  | 0, _ => []
  | w + 1, v => hexDigits w (v / 16) ++ [hexDigit (v % 16)]

/-- Modelled from the spec: the conversion `%#08x` of the repository's
`snprintf` (its `vsprintf.c` is not among the sources). The spec calls it the
code "in fixed-width hexadecimal" and shows `0x00000000` for the code 0: the
characters `0x` followed by the eight hexadecimal digits of the 32-bit
value. -/
def fmt_hex (v : Nat) : List Char := '0' :: 'x' :: hexDigits 8 v

/-- Modelled from the spec: the bounded write of the repository's `snprintf`
(its `vsprintf.c` is not among the sources). Of the expanded format string, at
most `size - 1` characters are stored in the buffer, followed by the
terminator; the result is the text then held by the buffer. -/
def snprintf (size : Nat) (expanded : List Char) : List Char :=
  expanded.take (size - 1)

/-- The sign normalisation of `strerror`: `if ( errno < 0 ) errno = -errno;`. -/
def normalize (errno : Int) : Int := if errno < 0 then neg32 errno else errno

/-- The expansion of the format `"%s (%#08x)"`. -/
def fmt_found (text : List Char) (errno : Int) : List Char :=
  text ++ ' ' :: '(' :: fmt_hex (toUnsigned errno) ++ [')']

/-- The expansion of the format `"Error %#08x"`. -/
def fmt_generic (errno : Int) : List Char :=
  "Error ".toList ++ fmt_hex (toUnsigned errno)

/-- The function `strerror`: the text held by `errbuf` on return. -/
def strerror (tab : List errortab) (errno : Int) : List Char :=
  let errno := normalize errno
  match find_closest_error tab errno with
  | some e => snprintf 64 (fmt_found e.text errno)
  | none => snprintf 64 (fmt_generic errno)

/-- The text expanded by the format of the `snprintf` call that `strerror`
makes, before the bounded write into `errbuf`. -/
def strerror_expanded (tab : List errortab) (errno : Int) : List Char :=
  let errno := normalize errno
  match find_closest_error tab errno with
  | some e => fmt_found e.text errno
  | none => fmt_generic errno

/-! ## The static buffer -/

/-- The terminator of a C string. -/
def NUL : Char := Char.ofNat 0

/-- The C string held by a buffer: the bytes before the first terminator. -/
def cstring (buf : List Char) : List Char := buf.takeWhile (fun ch => ch != NUL)

/-- Modelled from the spec: the effect of the repository's `snprintf` (its
`vsprintf.c` is not among the sources) on the bytes of the buffer it is given.
The result "is written into the shared render buffer", whose storage "is
reused": the stored characters and the terminator overwrite the first bytes
of the buffer, the bytes after the terminator are left as they were. With a
size of zero nothing is written. -/
def snprintf_buf (buf : List Char) (size : Nat) (expanded : List Char) : List Char :=
  if size = 0 then buf
  else snprintf size expanded ++ NUL :: buf.drop ((snprintf size expanded).length + 1)

/-- The function `strerror`, with the bytes of the static buffer `errbuf` as
explicit state: the bytes of `errbuf` on return, given its bytes on entry. The
returned pointer designates the C string then held by `errbuf`. -/
def strerror_buf (tab : List errortab) (errbuf : List Char) (errno : Int) : List Char :=
  let errno := normalize errno
  match find_closest_error tab errno with
  | some e => snprintf_buf errbuf 64 (fmt_found e.text errno)
  | none => snprintf_buf errbuf 64 (fmt_generic errno)

/-! ## Vocabulary of the statements -/

/-- The low `k` bits of an `int`, as a number. -/
def low_bits (k : Nat) (x : Int) : Nat := toUnsigned x % 2 ^ k

/-- The bits [31:16] of an `int`, as a number. -/
def high_half (x : Int) : Nat := toUnsigned x / 2 ^ 16

/-- The number written by a list of hexadecimal digits, most significant
first. -/
def hexValue (l : List Char) : Nat :=
  l.foldl (fun acc ch => 16 * acc + hexChars.indexOf ch) 0

/-- Entry `e` is the first entry of `tab`, in storage order, that satisfies `p`:
it sits at some index `i`, satisfies `p`, and no entry at a smaller index
does. -/
def first_with (p : errortab → Prop) (tab : List errortab) (e : errortab) : Prop :=
  ∃ i : Nat, tab[i]? = some e ∧ p e ∧
    ∀ (j : Nat) (x : errortab), j < i → tab[j]? = some x → ¬ p x

/-! ## Machine arithmetic: basic facts -/

theorem toUnsigned_lt (x : Int) : toUnsigned x < 4294967296 := by
  unfold toUnsigned; omega

theorem toUnsigned_toSigned (n : Nat) : toUnsigned (toSigned n) = n % 4294967296 := by
  unfold toUnsigned toSigned; split <;> omega

theorem toSigned_eq_zero (n : Nat) : toSigned n = 0 ↔ n % 4294967296 = 0 := by
  unfold toSigned; split <;> omega

theorem toUnsigned_of_nonneg (x : Int) (h0 : 0 ≤ x) (h1 : x < 4294967296) :
    ((toUnsigned x : Nat) : Int) = x := by
  unfold toUnsigned; omega

theorem xor_and_low_mask (a b k : Nat) :
    (a ^^^ b) &&& (2 ^ k - 1) = 0 ↔ a % 2 ^ k = b % 2 ^ k := by
  rw [Nat.and_pow_two_sub_one_eq_mod]
  constructor
  · intro h
    apply Nat.eq_of_testBit_eq
    intro i
    have hb := congrArg (fun n => Nat.testBit n i) h
    simp only [Nat.testBit_mod_two_pow, Nat.testBit_xor, Nat.zero_testBit] at hb ⊢
    by_cases hi : i < k
    · simp only [hi, decide_True, Bool.true_and] at hb ⊢
      revert hb; cases a.testBit i <;> cases b.testBit i <;> simp
    · simp [hi]
  · intro h
    apply Nat.eq_of_testBit_eq
    intro i
    have hb := congrArg (fun n => Nat.testBit n i) h
    simp only [Nat.testBit_mod_two_pow, Nat.testBit_xor, Nat.zero_testBit] at hb ⊢
    by_cases hi : i < k
    · simp only [hi, decide_True, Bool.true_and] at hb ⊢
      rw [hb]; simp
    · simp [hi]

theorem testBit_false_of_lt_of_le {a n i : Nat} (h : a < 2 ^ n) (hi : n ≤ i) :
    a.testBit i = false :=
  Nat.testBit_eq_false_of_lt (lt_of_lt_of_le h (Nat.pow_le_pow_right (by decide) hi))

theorem xor_and_pxenv_mask_aux (a b : Nat) (ha : a < 2 ^ 32) :
    (a ^^^ (b &&& (2 ^ 8 - 1))) &&& ((2 ^ 8 - 1) ||| ((2 ^ 16 - 1) <<< 16)) = 0
      ↔ a % 2 ^ 8 = b % 2 ^ 8 ∧ a < 2 ^ 16 := by
  constructor
  · intro h
    have hb : ∀ i,
        ((a ^^^ (b &&& (2 ^ 8 - 1))) &&& ((2 ^ 8 - 1) ||| ((2 ^ 16 - 1) <<< 16))).testBit i
          = false := by
      intro i; rw [h]; exact Nat.zero_testBit i
    simp only [Nat.testBit_and, Nat.testBit_xor, Nat.testBit_or, Nat.testBit_shiftLeft,
      Nat.testBit_two_pow_sub_one] at hb
    constructor
    · apply Nat.eq_of_testBit_eq
      intro i
      simp only [Nat.testBit_mod_two_pow]
      by_cases hi : i < 8
      · have := hb i
        simp only [hi, decide_True, Bool.true_and, Bool.and_true, Bool.true_or] at this ⊢
        revert this; cases a.testBit i <;> cases b.testBit i <;> simp
      · simp [hi]
    · apply Nat.lt_pow_two_of_testBit
      intro i hi
      by_cases h32 : i < 32
      · have := hb i
        have h8 : ¬ i < 8 := by omega
        have h16 : i - 16 < 16 := by omega
        have h16b : 16 ≤ i := hi
        simpa [h8, h16, h16b] using this
      · exact testBit_false_of_lt_of_le ha (by omega)
  · rintro ⟨hm, hlt⟩
    apply Nat.eq_of_testBit_eq
    intro i
    have hmi := congrArg (fun n => Nat.testBit n i) hm
    simp only [Nat.testBit_mod_two_pow] at hmi
    simp only [Nat.testBit_and, Nat.testBit_xor, Nat.testBit_or, Nat.testBit_shiftLeft,
      Nat.testBit_two_pow_sub_one, Nat.zero_testBit]
    by_cases hi : i < 8
    · simp only [hi, decide_True, Bool.true_and, Bool.and_true, Bool.true_or] at hmi ⊢
      rw [hmi]; simp
    · by_cases h16 : 16 ≤ i
      · have : a.testBit i = false := testBit_false_of_lt_of_le hlt h16
        simp [this, hi]
      · have : ¬ (16 ≤ i) := h16
        simp [hi, this]

theorem xor_and_pxenv_mask (a b : Nat) (ha : a < 4294967296) :
    (a ^^^ (b &&& 255)) &&& 4294902015 = 0 ↔ a % 256 = b % 256 ∧ a < 65536 := by
  have := xor_and_pxenv_mask_aux a b (by simpa using ha)
  have e : ((2 ^ 8 - 1) ||| ((2 ^ 16 - 1) <<< 16) : Nat) = 4294902015 := by decide
  rw [e] at this
  simpa using this

/-! ## The test of `find_error`, tier by tier -/

theorem mask_eq_iff (e : errortab) (errno mask : Int) :
    mask_eq e errno mask
      ↔ (toUnsigned e.errno ^^^ toUnsigned errno) &&& toUnsigned mask = 0 := by
  unfold mask_eq and32 xor32
  rw [toSigned_eq_zero, toUnsigned_toSigned]
  have h1 : toUnsigned e.errno ^^^ toUnsigned errno < 4294967296 := by
    have := @Nat.xor_lt_two_pow (toUnsigned e.errno) (toUnsigned errno) 32
      (by simpa using toUnsigned_lt e.errno) (by simpa using toUnsigned_lt errno)
    simpa using this
  have h2 : (toUnsigned e.errno ^^^ toUnsigned errno) &&& toUnsigned mask < 4294967296 := by
    have := @Nat.and_lt_two_pow (toUnsigned e.errno ^^^ toUnsigned errno) (toUnsigned mask) 32
      (by simpa using toUnsigned_lt mask)
    simpa using this
  rw [Nat.mod_eq_of_lt h1, Nat.mod_eq_of_lt h2]

/-- Tier 1: the mask `0x7fffffff` compares the bits [30:0]. -/
theorem mask_eq_exact (e : errortab) (c : Int) :
    mask_eq e c 0x7fffffff ↔ low_bits 31 e.errno = low_bits 31 c := by
  rw [mask_eq_iff]
  have : toUnsigned 0x7fffffff = 2 ^ 31 - 1 := by decide
  rw [this, xor_and_low_mask]; rfl

/-- Tier 2: the mask `0x0000ffff` compares the bits [15:0]. -/
theorem mask_eq_class (e : errortab) (c : Int) :
    mask_eq e c 0x0000ffff ↔ low_bits 16 e.errno = low_bits 16 c := by
  rw [mask_eq_iff]
  have : toUnsigned 0x0000ffff = 2 ^ 16 - 1 := by decide
  rw [this, xor_and_low_mask]; rfl

/-- Tier 3: the mask `0xffff00ff` against `errno & 0xff` compares the bits
[7:0] and requires the bits [31:16] of the entry to be zero. -/
theorem mask_eq_pxenv (e : errortab) (c : Int) :
    mask_eq e (and32 c 0x000000ff) (toSigned 0xffff00ff)
      ↔ low_bits 8 e.errno = low_bits 8 c ∧ high_half e.errno = 0 := by
  rw [mask_eq_iff]
  have h1 : toUnsigned (toSigned 0xffff00ff) = 4294902015 := by decide
  have h2 : toUnsigned (and32 c 0x000000ff) = toUnsigned c &&& 255 := by
    unfold and32
    rw [toUnsigned_toSigned]
    have h3 : toUnsigned 0x000000ff = 255 := by decide
    rw [h3]
    apply Nat.mod_eq_of_lt
    have : toUnsigned c &&& 255 < 2 ^ 8 := Nat.and_lt_two_pow _ (by decide)
    omega
  rw [h1, h2, xor_and_pxenv_mask _ _ (toUnsigned_lt e.errno)]
  unfold low_bits high_half
  constructor
  · rintro ⟨ha, hb⟩
    exact ⟨ha, Nat.div_eq_of_lt hb⟩
  · rintro ⟨ha, hb⟩
    refine ⟨ha, ?_⟩
    have := Nat.div_add_mod (toUnsigned e.errno) (2 ^ 16)
    have hm := Nat.mod_lt (toUnsigned e.errno) (show 0 < 2 ^ 16 by decide)
    rw [hb] at this
    omega

/-! ## The scan of `find_error` -/

theorem find_error_eq_none (tab : List errortab) (c m : Int) :
    find_error tab c m = none ↔ ∀ e ∈ tab, ¬ mask_eq e c m := by
  induction tab with
  | nil => simp [find_error]
  | cons a rest ih =>
    unfold find_error
    by_cases ha : mask_eq a c m
    · simp [ha]
    · simp [ha, ih]

theorem find_error_some (tab : List errortab) (c m : Int) (e : errortab)
    (h : find_error tab c m = some e) :
    first_with (fun x => mask_eq x c m) tab e := by
  induction tab with
  | nil => simp [find_error] at h
  | cons a rest ih =>
    unfold find_error at h
    by_cases ha : mask_eq a c m
    · rw [if_pos ha] at h
      cases h
      exact ⟨0, by simp, ha, fun j x hj => absurd hj (Nat.not_lt_zero j)⟩
    · rw [if_neg ha] at h
      obtain ⟨i, hi, hp, hlt⟩ := ih h
      refine ⟨i + 1, by simpa using hi, hp, ?_⟩
      intro j x hj hx
      cases j with
      | zero =>
        simp at hx
        subst hx
        exact ha
      | succ k =>
        simp at hx
        exact hlt k x (by omega) hx

theorem find_error_of_exists (tab : List errortab) (c m : Int)
    (h : ∃ x ∈ tab, mask_eq x c m) :
    ∃ e, find_error tab c m = some e ∧ first_with (fun x => mask_eq x c m) tab e := by
  cases hf : find_error tab c m with
  | none =>
    obtain ⟨x, hx, hp⟩ := h
    exact absurd hp ((find_error_eq_none tab c m).1 hf x hx)
  | some e => exact ⟨e, rfl, find_error_some tab c m e hf⟩

theorem first_with_congr {p q : errortab → Prop} (hpq : ∀ x, p x ↔ q x)
    {tab : List errortab} {e : errortab} (h : first_with p tab e) : first_with q tab e := by
  obtain ⟨i, hi, hp, hlt⟩ := h
  exact ⟨i, hi, (hpq e).1 hp, fun j x hj hx hq => hlt j x hj hx ((hpq x).2 hq)⟩

theorem first_with_mem {p : errortab → Prop} {tab : List errortab} {e : errortab}
    (h : first_with p tab e) : e ∈ tab := by
  obtain ⟨i, hi, _, _⟩ := h
  exact List.getElem?_mem hi

/-! ## The three tiers of `find_closest_error` -/

theorem find_closest_error_tier1 (tab : List errortab) (c : Int) (e : errortab)
    (h : find_error tab c 0x7fffffff = some e) : find_closest_error tab c = some e := by
  unfold find_closest_error; rw [h]

theorem find_closest_error_tier2 (tab : List errortab) (c : Int) (e : errortab)
    (h1 : find_error tab c 0x7fffffff = none)
    (h : find_error tab c 0x0000ffff = some e) : find_closest_error tab c = some e := by
  unfold find_closest_error; rw [h1]; simp only; rw [h]

theorem find_closest_error_tier3 (tab : List errortab) (c : Int)
    (h1 : find_error tab c 0x7fffffff = none)
    (h2 : find_error tab c 0x0000ffff = none) :
    find_closest_error tab c
      = find_error tab (and32 c 0x000000ff) (toSigned 0xffff00ff) := by
  unfold find_closest_error; rw [h1]; simp only; rw [h2]; simp only
  cases find_error tab (and32 c 0x000000ff) (toSigned 0xffff00ff) <;> rfl

theorem first_with_unique {p : errortab → Prop} {tab : List errortab} {e f : errortab}
    (he : first_with p tab e) (hf : first_with p tab f) : e = f := by
  obtain ⟨i, hi, hpe, hli⟩ := he
  obtain ⟨j, hj, hpf, hlj⟩ := hf
  rcases Nat.lt_trichotomy i j with h | h | h
  · exact absurd hpe (hlj i e h hi)
  · subst h
    rw [hi] at hj
    exact Option.some.inj hj
  · exact absurd hpf (hli j f h hj)

theorem find_error_of_first (tab : List errortab) (c m : Int) (e : errortab)
    (h : first_with (fun x => mask_eq x c m) tab e) : find_error tab c m = some e := by
  obtain ⟨f, hf, hfirst⟩ := find_error_of_exists tab c m ⟨e, first_with_mem h, h.choose_spec.2.1⟩
  rw [hf, first_with_unique h hfirst]

/-! ## The rendering: basic facts -/

theorem hexDigits_length (w v : Nat) : (hexDigits w v).length = w := by
  induction w generalizing v with
  | zero => rfl
  | succ n ih => simp [hexDigits, ih]

theorem hexDigit_mem (d : Nat) (h : d < 16) : hexDigit d ∈ hexChars := by
  have : ∀ k : Fin 16, hexDigit k.val ∈ hexChars := by decide
  exact this ⟨d, h⟩

theorem hexDigits_mem (w v : Nat) : ∀ d ∈ hexDigits w v, d ∈ hexChars := by
  induction w generalizing v with
  | zero => intro d hd; simp [hexDigits] at hd
  | succ n ih =>
    intro d hd
    simp only [hexDigits, List.mem_append, List.mem_singleton] at hd
    rcases hd with hd | hd
    · exact ih _ d hd
    · rw [hd]; exact hexDigit_mem _ (Nat.mod_lt _ (by decide))

theorem hexValue_hexDigit (d : Nat) (h : d < 16) : hexChars.indexOf (hexDigit d) = d := by
  have : ∀ k : Fin 16, hexChars.indexOf (hexDigit k.val) = k.val := by decide
  exact this ⟨d, h⟩

theorem hexValue_hexDigits (w v : Nat) : hexValue (hexDigits w v) = v % 16 ^ w := by
  induction w generalizing v with
  | zero => simp [hexDigits, hexValue, Nat.mod_one]
  | succ n ih =>
    have ih2 := ih (v / 16)
    unfold hexValue at ih2 ⊢
    simp only [hexDigits, List.foldl_append, List.foldl_cons, List.foldl_nil]
    rw [ih2, hexValue_hexDigit _ (Nat.mod_lt _ (by decide)), Nat.pow_succ', Nat.mod_mul]
    omega

theorem hexValue_toUnsigned (x : Int) : hexValue (hexDigits 8 (toUnsigned x)) = toUnsigned x := by
  rw [hexValue_hexDigits]
  exact Nat.mod_eq_of_lt (by have := toUnsigned_lt x; omega)

theorem fmt_hex_length (v : Nat) : (fmt_hex v).length = 10 := by
  simp [fmt_hex, hexDigits_length]

theorem fmt_found_length (text : List Char) (errno : Int) :
    (fmt_found text errno).length = text.length + 13 := by
  simp [fmt_found, fmt_hex_length]

theorem fmt_generic_length (errno : Int) : (fmt_generic errno).length = 16 := by
  simp [fmt_generic, fmt_hex_length]

theorem snprintf_of_fits (l : List Char) (h : l.length ≤ 63) : snprintf 64 l = l := by
  unfold snprintf
  exact List.take_of_length_le h

theorem strerror_of_none (tab : List errortab) (c : Int)
    (h : find_closest_error tab (normalize c) = none) :
    strerror tab c = fmt_generic (normalize c) := by
  unfold strerror
  simp only [h]
  exact snprintf_of_fits _ (by rw [fmt_generic_length]; decide)

theorem strerror_of_some (tab : List errortab) (c : Int) (e : errortab)
    (h : find_closest_error tab (normalize c) = some e) :
    strerror tab c = snprintf 64 (fmt_found e.text (normalize c)) := by
  unfold strerror
  simp only [h]

/-! ## The sign normalisation: basic facts -/

theorem neg32_of_isInt (c : Int) (h : isInt c) :
    neg32 c = if c = INT_MIN then INT_MIN else -c := by
  unfold isInt INT_MIN INT_MAX at h
  unfold neg32 toSigned toUnsigned INT_MIN
  split <;> split <;> omega

theorem normalize_neg32 (c : Int) (h : isInt c) : normalize (neg32 c) = normalize c := by
  rw [neg32_of_isInt c h]
  unfold isInt INT_MIN INT_MAX at h
  by_cases hmin : c = INT_MIN
  · rw [if_pos hmin, hmin]
  · rw [if_neg hmin]
    have hmin2 : c ≠ -2147483648 := hmin
    have hneg : isInt (-c) := by unfold isInt INT_MIN INT_MAX; omega
    have hmin3 : ¬ (-c = INT_MIN) := by unfold INT_MIN; omega
    unfold normalize
    by_cases hc : c < 0
    · rw [if_pos hc, if_neg (by omega), neg32_of_isInt c ⟨h.1, h.2⟩, if_neg hmin]
    · rw [if_neg hc]
      by_cases h0 : c = 0
      · subst h0; simp
      · rw [if_pos (by omega), neg32_of_isInt (-c) hneg, if_neg hmin3]; simp

/-! ## The static buffer: basic facts -/

theorem find_closest_error_mem (tab : List errortab) (c : Int) (e : errortab)
    (h : find_closest_error tab c = some e) : e ∈ tab := by
  cases s1 : find_error tab c 0x7fffffff with
  | some a =>
    rw [find_closest_error_tier1 tab c a s1] at h
    rw [← Option.some.inj h]
    exact first_with_mem (find_error_some tab c _ a s1)
  | none =>
    cases s2 : find_error tab c 0x0000ffff with
    | some a =>
      rw [find_closest_error_tier2 tab c a s1 s2] at h
      rw [← Option.some.inj h]
      exact first_with_mem (find_error_some tab c _ a s2)
    | none =>
      rw [find_closest_error_tier3 tab c s1 s2] at h
      exact first_with_mem (find_error_some tab _ _ e h)

theorem fmt_hex_no_nul (v : Nat) : NUL ∉ fmt_hex v := by
  intro h
  unfold fmt_hex at h
  simp only [List.mem_cons] at h
  rcases h with h | h | h
  · exact absurd h (by decide)
  · exact absurd h (by decide)
  · exact absurd (hexDigits_mem 8 v NUL h) (by decide)

theorem fmt_generic_no_nul (errno : Int) : NUL ∉ fmt_generic errno := by
  intro h
  unfold fmt_generic at h
  rcases List.mem_append.1 h with h | h
  · exact absurd h (by decide)
  · exact fmt_hex_no_nul _ h

theorem fmt_found_no_nul (text : List Char) (errno : Int) (ht : NUL ∉ text) :
    NUL ∉ fmt_found text errno := by
  intro h
  unfold fmt_found at h
  simp only [List.mem_append, List.mem_cons, List.mem_singleton] at h
  rcases h with (h | h | h | h) | h
  · exact ht h
  · exact absurd h (by decide)
  · exact absurd h (by decide)
  · exact fmt_hex_no_nul _ h
  · rcases h with h | h
    · exact absurd h (by decide)
    · exact absurd h (List.not_mem_nil _)

theorem cstring_write (t rest : List Char) (ht : NUL ∉ t) :
    cstring (t ++ NUL :: rest) = t := by
  unfold cstring
  rw [List.takeWhile_append_of_pos, List.takeWhile_cons_of_neg (by simp)]
  · simp
  · intro a ha
    have : a ≠ NUL := fun q => ht (q ▸ ha)
    simpa using this

theorem cstring_snprintf_buf (buf l : List Char) (hl : NUL ∉ l) :
    cstring (snprintf_buf buf 64 l) = snprintf 64 l := by
  unfold snprintf_buf
  rw [if_neg (by decide)]
  apply cstring_write
  intro h
  unfold snprintf at h
  exact hl (List.mem_of_mem_take h)

theorem cstring_strerror_buf (tab : List errortab) (hnul : ∀ e ∈ tab, NUL ∉ e.text)
    (buf : List Char) (c : Int) : cstring (strerror_buf tab buf c) = strerror tab c := by
  cases hf : find_closest_error tab (normalize c) with
  | none =>
    unfold strerror_buf strerror
    simp only [hf]
    exact cstring_snprintf_buf _ _ (fmt_generic_no_nul _)
  | some e =>
    unfold strerror_buf strerror
    simp only [hf]
    exact cstring_snprintf_buf _ _
      (fmt_found_no_nul _ _ (hnul e (find_closest_error_mem tab _ e hf)))

/-! ## Further facts on the lookup -/

theorem find_closest_error_eq_none (tab : List errortab) (c : Int) :
    find_closest_error tab c = none ↔
      ∀ e ∈ tab, ¬ mask_eq e c 0x7fffffff ∧ ¬ mask_eq e c 0x0000ffff
        ∧ ¬ mask_eq e (and32 c 0x000000ff) (toSigned 0xffff00ff) := by
  constructor
  · intro h
    cases s1 : find_error tab c 0x7fffffff with
    | some a => rw [find_closest_error_tier1 tab c a s1] at h; cases h
    | none =>
      cases s2 : find_error tab c 0x0000ffff with
      | some a => rw [find_closest_error_tier2 tab c a s1 s2] at h; cases h
      | none =>
        rw [find_closest_error_tier3 tab c s1 s2] at h
        intro e he
        exact ⟨(find_error_eq_none tab c _).1 s1 e he,
          (find_error_eq_none tab c _).1 s2 e he,
          (find_error_eq_none tab _ _).1 h e he⟩
  · intro h
    have s1 := (find_error_eq_none tab c 0x7fffffff).2 (fun e he => (h e he).1)
    have s2 := (find_error_eq_none tab c 0x0000ffff).2 (fun e he => (h e he).2.1)
    rw [find_closest_error_tier3 tab c s1 s2]
    exact (find_error_eq_none tab _ _).2 (fun e he => (h e he).2.2)

theorem toUnsigned_xor32 (a b : Int) :
    toUnsigned (xor32 a b) = toUnsigned a ^^^ toUnsigned b := by
  unfold xor32
  rw [toUnsigned_toSigned]
  have := @Nat.xor_lt_two_pow (toUnsigned a) (toUnsigned b) 32
    (by simpa using toUnsigned_lt a) (by simpa using toUnsigned_lt b)
  exact Nat.mod_eq_of_lt (by simpa using this)

theorem toUnsigned_and32 (a b : Int) :
    toUnsigned (and32 a b) = toUnsigned a &&& toUnsigned b := by
  unfold and32
  rw [toUnsigned_toSigned]
  have := @Nat.and_lt_two_pow (toUnsigned a) (toUnsigned b) 32
    (by simpa using toUnsigned_lt b)
  exact Nat.mod_eq_of_lt (by simpa using this)

theorem and32_eq_iff (a b c d : Int) :
    and32 a b = and32 c d ↔ toUnsigned a &&& toUnsigned b = toUnsigned c &&& toUnsigned d := by
  constructor
  · intro h
    rw [← toUnsigned_and32, ← toUnsigned_and32, h]
  · intro h
    unfold and32
    rw [h]

theorem xor_two_pow_mod (a k n : Nat) (h : k ≤ n) : (a ^^^ 2 ^ n) % 2 ^ k = a % 2 ^ k := by
  apply Nat.eq_of_testBit_eq
  intro i
  simp only [Nat.testBit_mod_two_pow, Nat.testBit_xor, Nat.testBit_two_pow]
  by_cases hi : i < k
  · have : ¬ (n = i) := by omega
    simp [hi, this]
  · simp [hi]

theorem low_bits_xor_bit31 (c : Int) (k : Nat) (h : k ≤ 31) :
    low_bits k (xor32 c (toSigned 0x80000000)) = low_bits k c := by
  unfold low_bits
  rw [toUnsigned_xor32]
  have : toUnsigned (toSigned 0x80000000) = 2 ^ 31 := by decide
  rw [this]
  exact xor_two_pow_mod _ _ _ h

theorem and_pxenv_mask (a b : Nat) :
    a &&& 4294902015 = b &&& 255 ↔ (a ^^^ (b &&& 255)) &&& 4294902015 = 0 := by
  have hk : (255 &&& 4294902015 : Nat) = 255 := by decide
  have hy : (b &&& 255) &&& 4294902015 = b &&& 255 := by
    rw [Nat.and_assoc, hk]
  rw [Nat.and_xor_distrib_right, hy, Nat.xor_eq_zero]

theorem find_error_congr (tab : List errortab) (c m d n : Int)
    (h : ∀ e, mask_eq e c m ↔ mask_eq e d n) : find_error tab c m = find_error tab d n := by
  induction tab with
  | nil => rfl
  | cons a rest ih =>
    unfold find_error
    by_cases ha : mask_eq a c m
    · rw [if_pos ha, if_pos ((h a).1 ha)]
    · rw [if_neg ha, if_neg (fun q => ha ((h a).2 q))]
      exact ih

theorem low_bits_normalize (c : Int) (hc : low_bits 8 c = 0) : low_bits 8 (normalize c) = 0 := by
  unfold low_bits at hc ⊢
  unfold normalize
  split
  · unfold neg32
    rw [toUnsigned_toSigned]
    unfold toUnsigned at hc ⊢
    omega
  · exact hc

theorem snprintf_found_ne_generic (text : List Char) (n m : Int) :
    snprintf 64 (fmt_found text n) ≠ fmt_generic m := by
  intro h
  by_cases hl : text.length + 13 ≤ 63
  · rw [snprintf_of_fits _ (by rw [fmt_found_length]; exact hl)] at h
    have h2 := congrArg List.getLast? h
    have e1 : (fmt_found text n).getLast? = some ')' := by
      unfold fmt_found
      rw [List.getLast?_append]
      rfl
    have e2 : (fmt_generic m).getLast? = some (hexDigit (toUnsigned m % 16)) := by
      simp [fmt_generic, fmt_hex, hexDigits]
    rw [e1, e2] at h2
    have hm := hexDigit_mem (toUnsigned m % 16) (Nat.mod_lt _ (by decide))
    rw [← Option.some.inj h2] at hm
    exact absurd hm (by decide)
  · have h2 := congrArg List.length h
    rw [fmt_generic_length] at h2
    unfold snprintf at h2
    rw [List.length_take, fmt_found_length] at h2
    omega

theorem pxenv_and_iff (x : errortab) (c : Int) :
    and32 x.errno (toSigned 0xffff00ff) = and32 c 0x000000ff
      ↔ mask_eq x (and32 c 0x000000ff) (toSigned 0xffff00ff) := by
  rw [and32_eq_iff, mask_eq_iff, toUnsigned_and32]
  have h1 : toUnsigned (toSigned 0xffff00ff) = 4294902015 := by decide
  have h2 : toUnsigned 0x000000ff = 255 := by decide
  rw [h1, h2]
  exact and_pxenv_mask _ _

theorem pxenv_and_iff_bits (x : errortab) (c : Int) :
    and32 x.errno (toSigned 0xffff00ff) = and32 c 0x000000ff
      ↔ high_half x.errno = 0 ∧ low_bits 8 x.errno = low_bits 8 c := by
  rw [pxenv_and_iff, mask_eq_pxenv]
  exact And.comm

theorem mask_eq_pxenv_zero (x : errortab) (c : Int) (hx : x.errno = 0)
    (hc : low_bits 8 c = 0) :
    mask_eq x (and32 c 0x000000ff) (toSigned 0xffff00ff) := by
  rw [mask_eq_pxenv, hx, hc]
  exact ⟨by decide, by decide⟩

theorem find_closest_error_of_zero (tab : List errortab) (c : Int)
    (h0 : ∃ e ∈ tab, e.errno = 0) (hc : low_bits 8 c = 0) :
    ∃ e, find_closest_error tab c = some e := by
  cases hf : find_closest_error tab c with
  | some e => exact ⟨e, rfl⟩
  | none =>
    obtain ⟨x, hx, hx0⟩ := h0
    exact absurd (mask_eq_pxenv_zero x c hx0 hc)
      (((find_closest_error_eq_none tab c).1 hf x hx).2.2)

/-! ## Claims -/

/-- C1, as stated, fails on the code in three ways. (a) With two entries of
the same code, the text for that code is built from the first one and does not
contain the description of the second. (b) An entry of negative code `-5` is
looked up as `5`: it is not found and the hexadecimal shown is that of `5`.
(c) With a description of 52 characters the text is cut at 63 characters and
the hexadecimal rendering of the code is not whole. -/
theorem strerror_registered_counterexample :
    (strerror [⟨5, ['A']⟩, ⟨5, ['B']⟩] 5 = "A (0x00000005)".toList
      ∧ ¬ (['B'] <:+: strerror [⟨5, ['A']⟩, ⟨5, ['B']⟩] 5))
    ∧ (strerror [⟨-5, ['A']⟩] (-5) = "Error 0x00000005".toList
      ∧ ¬ (['A'] <:+: strerror [⟨-5, ['A']⟩] (-5))
      ∧ ¬ (fmt_hex (toUnsigned (-5)) <:+: strerror [⟨-5, ['A']⟩] (-5)))
    ∧ (strerror [⟨1, List.replicate 52 'a'⟩] 1 = List.replicate 52 'a' ++ " (0x0000000".toList
      ∧ ¬ (fmt_hex (toUnsigned 1) <:+: strerror [⟨1, List.replicate 52 'a'⟩] 1)) := by
  refine ⟨⟨by decide, by decide⟩, ⟨by decide, by decide, by decide⟩, ⟨by decide, by decide⟩⟩

/-- C1 (amended): for every registry and every entry `e` of it whose code is
non-negative, that is the first entry in storage order agreeing with its code
on the bits [30:0], and whose description has at most 51 characters,
`strerror` called with the code of `e` returns a text that contains the
description and the fixed-width hexadecimal rendering of the code: the first
63 characters of the description, a space and the parenthesised hexadecimal. -/
theorem strerror_registered (tab : List errortab) (e : errortab)
    (hfirst : first_with (fun x => low_bits 31 x.errno = low_bits 31 e.errno) tab e)
    (hnn : 0 ≤ e.errno) (hlen : e.text.length ≤ 51) :
    strerror tab e.errno
        = (e.text ++ ' ' :: '(' :: fmt_hex (toUnsigned e.errno) ++ [')']).take 63
      ∧ e.text <:+: strerror tab e.errno
      ∧ fmt_hex (toUnsigned e.errno) <:+: strerror tab e.errno := by
  have hnorm : normalize e.errno = e.errno := by
    unfold normalize; rw [if_neg (by omega)]
  have hscan : find_error tab e.errno 0x7fffffff = some e :=
    find_error_of_first tab e.errno 0x7fffffff e
      (first_with_congr (fun x => (mask_eq_exact x e.errno).symm) hfirst)
  have hfound : find_closest_error tab (normalize e.errno) = some e := by
    rw [hnorm]; exact find_closest_error_tier1 tab e.errno e hscan
  have heq : strerror tab e.errno
      = (e.text ++ ' ' :: '(' :: fmt_hex (toUnsigned e.errno) ++ [')']).take 63 := by
    rw [strerror_of_some tab e.errno e hfound, hnorm]
    rfl
  have hsplit : (e.text ++ ' ' :: '(' :: fmt_hex (toUnsigned e.errno) ++ [')']).take 63
      = e.text ++ ([' ', '('] ++ (fmt_hex (toUnsigned e.errno)
          ++ [')'].take (63 - (e.text.length + 12)))) := by
    have hassoc : e.text ++ ' ' :: '(' :: fmt_hex (toUnsigned e.errno) ++ [')']
        = (e.text ++ ([' ', '('] ++ fmt_hex (toUnsigned e.errno))) ++ [')'] := by simp
    have hl : (e.text ++ ([' ', '('] ++ fmt_hex (toUnsigned e.errno))).length
        = e.text.length + 12 := by
      simp [fmt_hex_length]
    rw [hassoc, List.take_append_eq_append_take, hl,
      List.take_of_length_le (by rw [hl]; omega)]
    simp
  refine ⟨heq, ?_, ?_⟩
  · rw [heq, hsplit]
    exact ⟨[], [' ', '('] ++ (fmt_hex (toUnsigned e.errno)
      ++ [')'].take (63 - (e.text.length + 12))), by simp⟩
  · rw [heq, hsplit]
    exact ⟨e.text ++ [' ', '('], [')'].take (63 - (e.text.length + 12)), by simp⟩

/-- Witness of C1 (amended): the second entry of a two-entry table. -/
theorem strerror_registered_witness :
    strerror [⟨0, "No error".toList⟩, ⟨0x2c, "Out of memory".toList⟩] 0x2c
        = "Out of memory (0x0000002c)".toList
      ∧ "Out of memory".toList
          <:+: strerror [⟨0, "No error".toList⟩, ⟨0x2c, "Out of memory".toList⟩] 0x2c
      ∧ fmt_hex (toUnsigned 0x2c)
          <:+: strerror [⟨0, "No error".toList⟩, ⟨0x2c, "Out of memory".toList⟩] 0x2c :=
  strerror_registered [⟨0, "No error".toList⟩, ⟨0x2c, "Out of memory".toList⟩]
    ⟨0x2c, "Out of memory".toList⟩
    ⟨1, by decide, by decide, by
      intro j x hj hx
      have hj0 : j = 0 := by omega
      subst hj0
      simp at hx
      subst hx
      decide⟩
    (by decide) (by decide)

/-- C2: for every registry and every 32-bit signed code `c`, `strerror`
returns the same text for `c` and for `-c`, the negation being taken on 32
bits (so that `-INT_MIN` is `INT_MIN`). -/
theorem strerror_neg (tab : List errortab) (c : Int) (h : isInt c) :
    strerror tab c = strerror tab (neg32 c) := by
  unfold strerror
  rw [normalize_neg32 c h]

/-- Witness of C2, at `INT_MIN`. -/
theorem strerror_neg_witness :
    isInt INT_MIN
      ∧ strerror [⟨0, "No error".toList⟩] INT_MIN
        = strerror [⟨0, "No error".toList⟩] (neg32 INT_MIN) :=
  ⟨by decide, strerror_neg [⟨0, "No error".toList⟩] INT_MIN (by decide)⟩

/-- C3: for every registry and every code `c`, if no entry passes the test of
any of the three tiers for the normalized code, `strerror` returns exactly
`Error ` followed by `0x` and the eight lowercase hexadecimal digits of the
normalized code (digits that write its 32-bit pattern), 16 characters in
all. -/
theorem strerror_generic (tab : List errortab) (c : Int)
    (h1 : ∀ e ∈ tab, low_bits 31 e.errno ≠ low_bits 31 (normalize c))
    (h2 : ∀ e ∈ tab, low_bits 16 e.errno ≠ low_bits 16 (normalize c))
    (h3 : ∀ e ∈ tab,
      ¬ (low_bits 8 e.errno = low_bits 8 (normalize c) ∧ high_half e.errno = 0)) :
    strerror tab c
        = ['E', 'r', 'r', 'o', 'r', ' ', '0', 'x']
          ++ hexDigits 8 (toUnsigned (normalize c))
      ∧ (hexDigits 8 (toUnsigned (normalize c))).length = 8
      ∧ (∀ d ∈ hexDigits 8 (toUnsigned (normalize c)), d ∈ hexChars)
      ∧ hexValue (hexDigits 8 (toUnsigned (normalize c))) = toUnsigned (normalize c)
      ∧ (strerror tab c).length = 16 := by
  have s1 : find_error tab (normalize c) 0x7fffffff = none :=
    (find_error_eq_none tab _ _).2 (fun e he hm => h1 e he ((mask_eq_exact e _).1 hm))
  have s2 : find_error tab (normalize c) 0x0000ffff = none :=
    (find_error_eq_none tab _ _).2 (fun e he hm => h2 e he ((mask_eq_class e _).1 hm))
  have s3 : find_error tab (and32 (normalize c) 0x000000ff) (toSigned 0xffff00ff) = none :=
    (find_error_eq_none tab _ _).2 (fun e he hm => h3 e he ((mask_eq_pxenv e _).1 hm))
  have hnone : find_closest_error tab (normalize c) = none := by
    rw [find_closest_error_tier3 tab _ s1 s2, s3]
  have heq := strerror_of_none tab c hnone
  refine ⟨by rw [heq]; rfl, hexDigits_length _ _, hexDigits_mem _ _,
    hexValue_toUnsigned _, ?_⟩
  rw [heq, fmt_generic_length]

/-- Witness of C3: a table whose only entry differs from the code in its low
eight bits. -/
theorem strerror_generic_witness :
    strerror [⟨0x2c, "Out of memory".toList⟩] (-0x1234abcd) = "Error 0x1234abcd".toList
      ∧ (strerror [⟨0x2c, "Out of memory".toList⟩] (-0x1234abcd)).length = 16 := by
  have h := strerror_generic [⟨0x2c, "Out of memory".toList⟩] (-0x1234abcd)
    (by decide) (by decide) (by decide)
  exact ⟨h.1.trans (by decide), h.2.2.2.2⟩

/-- C4: with an empty registry, for every code `c`, `find_closest_error`
returns no match and `strerror` returns the generic text, `Error ` followed by
the fixed-width hexadecimal of the normalized code; both are total
functions. -/
theorem strerror_empty (c : Int) :
    find_closest_error [] c = none
      ∧ find_closest_error [] (normalize c) = none
      ∧ strerror [] c
        = ['E', 'r', 'r', 'o', 'r', ' '] ++ fmt_hex (toUnsigned (normalize c)) := by
  refine ⟨rfl, rfl, ?_⟩
  rw [strerror_of_none [] c rfl]
  rfl

/-- C5: for every registry and code `c`, if no entry agrees with `c` on the
bits [30:0] (exact tier) and some entry agrees with `c` on the low 16 bits,
`find_closest_error` returns the first entry in storage order that agrees with
`c` on the low 16 bits. -/
theorem find_closest_error_class (tab : List errortab) (c : Int)
    (h1 : ∀ e ∈ tab, low_bits 31 e.errno ≠ low_bits 31 c)
    (h2 : ∃ e ∈ tab, low_bits 16 e.errno = low_bits 16 c) :
    ∃ e, find_closest_error tab c = some e
      ∧ first_with (fun x => low_bits 16 x.errno = low_bits 16 c) tab e := by
  have s1 : find_error tab c 0x7fffffff = none :=
    (find_error_eq_none tab _ _).2 (fun e he hm => h1 e he ((mask_eq_exact e _).1 hm))
  obtain ⟨x, hx, hxc⟩ := h2
  obtain ⟨e, he, hfirst⟩ :=
    find_error_of_exists tab c 0x0000ffff ⟨x, hx, (mask_eq_class x c).2 hxc⟩
  exact ⟨e, find_closest_error_tier2 tab c e s1 he,
    first_with_congr (fun y => mask_eq_class y c) hfirst⟩

/-- Witness of C5: the generic entry `0x2c` answers for the code `0x1002c`,
and the first of two entries of that class is the one returned. -/
theorem find_closest_error_class_witness :
    ∃ e, find_closest_error
          [⟨0, "No error".toList⟩, ⟨0x2c, "Out of memory".toList⟩, ⟨0x2002c, ['B']⟩] 0x1002c
        = some e
      ∧ first_with (fun x => low_bits 16 x.errno = low_bits 16 0x1002c)
          [⟨0, "No error".toList⟩, ⟨0x2c, "Out of memory".toList⟩, ⟨0x2002c, ['B']⟩] e :=
  find_closest_error_class
    [⟨0, "No error".toList⟩, ⟨0x2c, "Out of memory".toList⟩, ⟨0x2002c, ['B']⟩] 0x1002c
    (by decide) (by decide)

/-- C6, as stated, fails on the code: the only entry, of code `0x10005`, agrees
with the code `0x105` on the low 8 bits and on neither the bits [30:0] nor the
low 16 bits, yet `find_closest_error` returns no match, because the third
lookup also compares the bits [31:16] of the entry with zero. -/
theorem find_closest_error_pxenv_counterexample :
    (∀ e ∈ [(⟨0x10005, ['A']⟩ : errortab)], low_bits 31 e.errno ≠ low_bits 31 0x105)
      ∧ (∀ e ∈ [(⟨0x10005, ['A']⟩ : errortab)], low_bits 16 e.errno ≠ low_bits 16 0x105)
      ∧ (∃ e ∈ [(⟨0x10005, ['A']⟩ : errortab)], low_bits 8 e.errno = low_bits 8 0x105)
      ∧ find_closest_error [⟨0x10005, ['A']⟩] 0x105 = none := by
  refine ⟨by decide, by decide, by decide, by decide⟩

/-- C6 (amended): for every registry and code `c`, if no entry agrees with `c`
on the bits [30:0] nor on the low 16 bits, and some entry has its low 8 bits
equal to those of `c` and its bits [31:16] all zero, `find_closest_error`
returns the first such entry in storage order, whatever its class bits
[15:8]. -/
theorem find_closest_error_pxenv (tab : List errortab) (c : Int)
    (h1 : ∀ e ∈ tab, low_bits 31 e.errno ≠ low_bits 31 c)
    (h2 : ∀ e ∈ tab, low_bits 16 e.errno ≠ low_bits 16 c)
    (h3 : ∃ e ∈ tab, low_bits 8 e.errno = low_bits 8 c ∧ high_half e.errno = 0) :
    ∃ e, find_closest_error tab c = some e
      ∧ first_with
          (fun x => low_bits 8 x.errno = low_bits 8 c ∧ high_half x.errno = 0) tab e := by
  have s1 : find_error tab c 0x7fffffff = none :=
    (find_error_eq_none tab _ _).2 (fun e he hm => h1 e he ((mask_eq_exact e _).1 hm))
  have s2 : find_error tab c 0x0000ffff = none :=
    (find_error_eq_none tab _ _).2 (fun e he hm => h2 e he ((mask_eq_class e _).1 hm))
  obtain ⟨x, hx, hxc⟩ := h3
  obtain ⟨e, he, hfirst⟩ :=
    find_error_of_exists tab (and32 c 0x000000ff) (toSigned 0xffff00ff)
      ⟨x, hx, (mask_eq_pxenv x c).2 hxc⟩
  refine ⟨e, ?_, first_with_congr (fun y => mask_eq_pxenv y c) hfirst⟩
  rw [find_closest_error_tier3 tab c s1 s2, he]

/-- Witness of C6 (amended): the code `0x30305` resolves to the entry
`0x0205`, of another class, and not to the earlier entry `0x10005`. -/
theorem find_closest_error_pxenv_witness :
    ∃ e, find_closest_error [⟨0x10005, ['A']⟩, ⟨0x0205, ['B']⟩, ⟨0x05, ['C']⟩] 0x30305
        = some e
      ∧ first_with
          (fun x => low_bits 8 x.errno = low_bits 8 0x30305 ∧ high_half x.errno = 0)
          [⟨0x10005, ['A']⟩, ⟨0x0205, ['B']⟩, ⟨0x05, ['C']⟩] e :=
  find_closest_error_pxenv [⟨0x10005, ['A']⟩, ⟨0x0205, ['B']⟩, ⟨0x05, ['C']⟩] 0x30305
    (by decide) (by decide) (by decide)

/-- C7: tie-break. For every registry, code and mask, when some entries pass
the test, `find_error` returns the one of smallest index in storage order: no
entry before it passes the test. Every entry returned by `find_closest_error`
is, for the tier that produced it, the entry of smallest index passing the
test of that tier. -/
theorem tie_break (tab : List errortab) (c m : Int) (h : ∃ x ∈ tab, mask_eq x c m) :
    (∃ e, find_error tab c m = some e ∧ first_with (fun x => mask_eq x c m) tab e)
      ∧ ∀ e, find_closest_error tab c = some e →
          first_with (fun x => mask_eq x c 0x7fffffff) tab e
          ∨ ((∀ x ∈ tab, ¬ mask_eq x c 0x7fffffff)
              ∧ first_with (fun x => mask_eq x c 0x0000ffff) tab e)
          ∨ ((∀ x ∈ tab, ¬ mask_eq x c 0x7fffffff)
              ∧ (∀ x ∈ tab, ¬ mask_eq x c 0x0000ffff)
              ∧ first_with
                  (fun x => mask_eq x (and32 c 0x000000ff) (toSigned 0xffff00ff)) tab e) := by
  refine ⟨find_error_of_exists tab c m h, ?_⟩
  intro e he
  cases s1 : find_error tab c 0x7fffffff with
  | some a =>
    rw [find_closest_error_tier1 tab c a s1] at he
    have hae : a = e := Option.some.inj he
    rw [← hae]
    exact Or.inl (find_error_some tab c _ a s1)
  | none =>
    have n1 := (find_error_eq_none tab c _).1 s1
    cases s2 : find_error tab c 0x0000ffff with
    | some a =>
      rw [find_closest_error_tier2 tab c a s1 s2] at he
      have hae : a = e := Option.some.inj he
      rw [← hae]
      exact Or.inr (Or.inl ⟨n1, find_error_some tab c _ a s2⟩)
    | none =>
      have n2 := (find_error_eq_none tab c _).1 s2
      rw [find_closest_error_tier3 tab c s1 s2] at he
      exact Or.inr (Or.inr ⟨n1, n2, find_error_some tab _ _ e he⟩)

/-- Witness of C7: two entries collide under the mask `0x0000ffff`; the first
one is returned. -/
theorem tie_break_witness :
    (∃ e, find_error [⟨0, ['Z']⟩, ⟨0x1002c, ['A']⟩, ⟨0x2002c, ['B']⟩] 0x2002c 0x0000ffff
          = some e
        ∧ first_with (fun x => mask_eq x 0x2002c 0x0000ffff)
            [⟨0, ['Z']⟩, ⟨0x1002c, ['A']⟩, ⟨0x2002c, ['B']⟩] e)
      ∧ find_error [⟨0, ['Z']⟩, ⟨0x1002c, ['A']⟩, ⟨0x2002c, ['B']⟩] 0x2002c 0x0000ffff
          = some ⟨0x1002c, ['A']⟩ :=
  ⟨(tie_break [⟨0, ['Z']⟩, ⟨0x1002c, ['A']⟩, ⟨0x2002c, ['B']⟩] 0x2002c 0x0000ffff
      (by decide)).1, by decide⟩

/-- C8: the tiers are tried in order and the first tier with a match wins. For
every registry and code `c` with some entry agreeing with `c` on the low 16
bits, `find_closest_error` returns an entry; if some entry agrees with `c` on
the bits [30:0] (the mask `0x7fffffff`), it is the first such entry, whatever
entries stored before it match under the later tiers; otherwise it is the first
entry agreeing with `c` on the low 16 bits, whatever entries stored before it
match under the third tier. -/
theorem tier_order (tab : List errortab) (c : Int)
    (h : ∃ x ∈ tab, low_bits 16 x.errno = low_bits 16 c) :
    ∃ e, find_closest_error tab c = some e
      ∧ ((∃ x ∈ tab, low_bits 31 x.errno = low_bits 31 c) →
          first_with (fun x => low_bits 31 x.errno = low_bits 31 c) tab e)
      ∧ ((∀ x ∈ tab, low_bits 31 x.errno ≠ low_bits 31 c) →
          first_with (fun x => low_bits 16 x.errno = low_bits 16 c) tab e) := by
  cases s1 : find_error tab c 0x7fffffff with
  | some a =>
    have hfirst := first_with_congr (fun y => mask_eq_exact y c) (find_error_some tab c _ a s1)
    refine ⟨a, find_closest_error_tier1 tab c a s1, fun _ => hfirst, ?_⟩
    intro hno
    exact absurd hfirst.choose_spec.2.1 (hno a (first_with_mem hfirst))
  | none =>
    have n1 := (find_error_eq_none tab c _).1 s1
    obtain ⟨x, hx, hxc⟩ := h
    obtain ⟨e, he, hfirst⟩ :=
      find_error_of_exists tab c 0x0000ffff ⟨x, hx, (mask_eq_class x c).2 hxc⟩
    refine ⟨e, find_closest_error_tier2 tab c e s1 he, ?_,
      fun _ => first_with_congr (fun y => mask_eq_class y c) hfirst⟩
    rintro ⟨y, hy, hyc⟩
    exact absurd ((mask_eq_exact y c).2 hyc) (n1 y hy)

/-- Witness of C8: the exact entry is stored last, after an entry matching only
under the third tier and one matching only under the second; it is returned for
its code `0x105`, and for `0x20105`, which has no exact entry, the second-tier
entry is returned although the third-tier one is stored before it. -/
theorem tier_order_witness :
    (∃ e, find_closest_error [⟨0x205, ['C']⟩, ⟨0x10105, ['B']⟩, ⟨0x105, ['A']⟩] 0x105 = some e
      ∧ ((∃ x ∈ [(⟨0x205, ['C']⟩ : errortab), ⟨0x10105, ['B']⟩, ⟨0x105, ['A']⟩],
            low_bits 31 x.errno = low_bits 31 0x105) →
          first_with (fun x => low_bits 31 x.errno = low_bits 31 0x105)
            [⟨0x205, ['C']⟩, ⟨0x10105, ['B']⟩, ⟨0x105, ['A']⟩] e)
      ∧ ((∀ x ∈ [(⟨0x205, ['C']⟩ : errortab), ⟨0x10105, ['B']⟩, ⟨0x105, ['A']⟩],
            low_bits 31 x.errno ≠ low_bits 31 0x105) →
          first_with (fun x => low_bits 16 x.errno = low_bits 16 0x105)
            [⟨0x205, ['C']⟩, ⟨0x10105, ['B']⟩, ⟨0x105, ['A']⟩] e))
      ∧ find_closest_error [⟨0x205, ['C']⟩, ⟨0x10105, ['B']⟩, ⟨0x105, ['A']⟩] 0x105
          = some ⟨0x105, ['A']⟩
      ∧ find_closest_error [⟨0x205, ['C']⟩, ⟨0x10105, ['B']⟩, ⟨0x105, ['A']⟩] 0x20105
          = some ⟨0x10105, ['B']⟩ :=
  ⟨tier_order [⟨0x205, ['C']⟩, ⟨0x10105, ['B']⟩, ⟨0x105, ['A']⟩] 0x105 (by decide),
    by decide, by decide⟩

/-- C9: for a registry whose first entry is `(0, "No error")`, as in the
built-in table `common_errors`, `strerror` called with 0 returns exactly
`No error (0x00000000)`. -/
theorem strerror_no_error (rest : List errortab) :
    strerror (⟨0, "No error".toList⟩ :: rest) 0 = "No error (0x00000000)".toList := by
  have hm : mask_eq ⟨0, "No error".toList⟩ 0 0x7fffffff := by decide
  have hscan : find_error (⟨0, "No error".toList⟩ :: rest) 0 0x7fffffff
      = some ⟨0, "No error".toList⟩ := by
    unfold find_error; rw [if_pos hm]
  have hnorm : normalize 0 = 0 := by decide
  have hfound : find_closest_error (⟨0, "No error".toList⟩ :: rest) (normalize 0)
      = some ⟨0, "No error".toList⟩ := by
    rw [hnorm]; exact find_closest_error_tier1 _ 0 _ hscan
  rw [strerror_of_some _ 0 _ hfound, hnorm]
  decide

/-- C10: for every registry and code `c` for which `find_closest_error`, called
with the normalized code, returns an entry `e`, the text expanded by `strerror`
is the description of `e`, a space and the parenthesised fixed-width
hexadecimal of the normalized code of the caller (not of the code of `e`);
`strerror` returns its first 63 characters, which is the whole of it when the
description has at most 50 characters. -/
theorem strerror_found (tab : List errortab) (c : Int) (e : errortab)
    (h : find_closest_error tab (normalize c) = some e) :
    strerror tab c
        = (e.text ++ ' ' :: '(' :: fmt_hex (toUnsigned (normalize c)) ++ [')']).take 63
      ∧ (e.text.length ≤ 50 →
          strerror tab c
            = e.text ++ ' ' :: '(' :: fmt_hex (toUnsigned (normalize c)) ++ [')']) := by
  have heq := strerror_of_some tab c e h
  refine ⟨by rw [heq]; rfl, ?_⟩
  intro hlen
  rw [heq, snprintf_of_fits _ (by rw [fmt_found_length]; omega)]
  rfl

/-- Witness of C10: on a second-tier fallback the text shows the code of the
caller, `0x1002c`, and not the code `0x2c` of the entry. -/
theorem strerror_found_witness :
    strerror [⟨0, "No error".toList⟩, ⟨0x2c, "Out of memory".toList⟩] (-0x1002c)
      = "Out of memory (0x0001002c)".toList := by
  have h := strerror_found [⟨0, "No error".toList⟩, ⟨0x2c, "Out of memory".toList⟩]
    (-0x1002c) ⟨0x2c, "Out of memory".toList⟩ (by decide)
  exact (h.2 (by decide)).trans (by decide)

/-! ## Claims on the buffer, the totality and the normalisation -/

/-- C11: for every registry, with descriptions of any length, and every code
`c`, the text written by `strerror` has at most 63 characters, so that with its
terminator it fits the 64 bytes of `errbuf`, whose length the write preserves;
it is the first 63 characters of the full expanded text, hence a leading part
of it. When an entry `e` is found, the full text starts with its description:
a description of at most 63 characters is kept whole at the head of the
written text and only the characters after it are cut; a longer description
fills the written text with its first 63 characters. -/
theorem strerror_bounded (tab : List errortab) (c : Int) :
    (strerror tab c).length ≤ 63
      ∧ strerror tab c = (strerror_expanded tab c).take 63
      ∧ strerror tab c <+: strerror_expanded tab c
      ∧ (∀ buf : List Char, buf.length = 64 → (strerror_buf tab buf c).length = 64)
      ∧ (∀ e, find_closest_error tab (normalize c) = some e →
          strerror_expanded tab c
              = e.text ++ ' ' :: '(' :: fmt_hex (toUnsigned (normalize c)) ++ [')']
            ∧ (e.text.length ≤ 63 → e.text <+: strerror tab c)
            ∧ (63 < e.text.length → strerror tab c = e.text.take 63)) := by
  have heq : strerror tab c = (strerror_expanded tab c).take 63 := by
    cases hf : find_closest_error tab (normalize c) with
    | none => unfold strerror strerror_expanded; simp only [hf]; rfl
    | some e => unfold strerror strerror_expanded; simp only [hf]; rfl
  have hlen : (strerror tab c).length ≤ 63 := by
    rw [heq]; exact List.length_take_le _ _
  refine ⟨hlen, heq, ?_, ?_, ?_⟩
  · rw [heq]
    exact ⟨(strerror_expanded tab c).drop 63, List.take_append_drop _ _⟩
  · intro buf hbuf
    have hb : ∀ l : List Char, (snprintf 64 l).length ≤ 63 := by
      intro l; unfold snprintf; exact List.length_take_le _ _
    have hw : ∀ l : List Char, (snprintf_buf buf 64 l).length = 64 := by
      intro l
      have := hb l
      unfold snprintf_buf
      rw [if_neg (by decide)]
      simp only [List.length_append, List.length_cons, List.length_drop, hbuf]
      omega
    cases hf : find_closest_error tab (normalize c) with
    | none => unfold strerror_buf; simp only [hf]; exact hw _
    | some e => unfold strerror_buf; simp only [hf]; exact hw _
  · intro e he
    have hexp : strerror_expanded tab c
        = e.text ++ ' ' :: '(' :: fmt_hex (toUnsigned (normalize c)) ++ [')'] := by
      unfold strerror_expanded
      simp only [he]
      rfl
    refine ⟨hexp, ?_, ?_⟩
    · intro hl
      rw [heq, hexp, List.append_assoc, List.take_append_eq_append_take,
        List.take_of_length_le hl]
      exact ⟨_, rfl⟩
    · intro hl
      rw [heq, hexp, List.append_assoc, List.take_append_of_le_length (Nat.le_of_lt hl)]

/-- C12: `find_closest_error` is a total function; it returns no match exactly
when no entry of the registry passes the test of any of the three tiers for
the code, and every entry it returns is an element of the registry that passes
the test of at least one tier. The tests are: equal bits [30:0]; equal low 16
bits; equal low 8 bits with the bits [31:16] of the entry zero. -/
theorem find_closest_error_total (tab : List errortab) (c : Int) :
    (find_closest_error tab c = none ↔
        ∀ e ∈ tab, ¬ mask_eq e c 0x7fffffff ∧ ¬ mask_eq e c 0x0000ffff
          ∧ ¬ mask_eq e (and32 c 0x000000ff) (toSigned 0xffff00ff))
      ∧ (find_closest_error tab c = none ↔
        ∀ e ∈ tab, low_bits 31 e.errno ≠ low_bits 31 c ∧ low_bits 16 e.errno ≠ low_bits 16 c
          ∧ ¬ (low_bits 8 e.errno = low_bits 8 c ∧ high_half e.errno = 0))
      ∧ (∀ e, find_closest_error tab c = some e →
          e ∈ tab ∧ (mask_eq e c 0x7fffffff ∨ mask_eq e c 0x0000ffff
            ∨ mask_eq e (and32 c 0x000000ff) (toSigned 0xffff00ff)))
      ∧ (find_closest_error tab c = none ∨ ∃ e, find_closest_error tab c = some e) := by
  have hnone := find_closest_error_eq_none tab c
  refine ⟨hnone, ?_, ?_, ?_⟩
  · rw [hnone]
    constructor
    · intro h e he
      exact ⟨fun q => (h e he).1 ((mask_eq_exact e c).2 q),
        fun q => (h e he).2.1 ((mask_eq_class e c).2 q),
        fun q => (h e he).2.2 ((mask_eq_pxenv e c).2 q)⟩
    · intro h e he
      exact ⟨fun q => (h e he).1 ((mask_eq_exact e c).1 q),
        fun q => (h e he).2.1 ((mask_eq_class e c).1 q),
        fun q => (h e he).2.2 ((mask_eq_pxenv e c).1 q)⟩
  · intro e he
    cases s1 : find_error tab c 0x7fffffff with
    | some a =>
      rw [find_closest_error_tier1 tab c a s1] at he
      have hae : a = e := Option.some.inj he
      have hf := find_error_some tab c _ a s1
      rw [← hae]
      exact ⟨first_with_mem hf, Or.inl hf.choose_spec.2.1⟩
    | none =>
      cases s2 : find_error tab c 0x0000ffff with
      | some a =>
        rw [find_closest_error_tier2 tab c a s1 s2] at he
        have hae : a = e := Option.some.inj he
        have hf := find_error_some tab c _ a s2
        rw [← hae]
        exact ⟨first_with_mem hf, Or.inr (Or.inl hf.choose_spec.2.1)⟩
      | none =>
        rw [find_closest_error_tier3 tab c s1 s2] at he
        have hf := find_error_some tab _ _ e he
        exact ⟨first_with_mem hf, Or.inr (Or.inr hf.choose_spec.2.1)⟩
  · cases find_closest_error tab c with
    | none => exact Or.inl rfl
    | some e => exact Or.inr ⟨e, rfl⟩

/-- C13, as stated, fails on the code at `INT_MIN`: under 32-bit wrap-around
the negation of `INT_MIN` is `INT_MIN`, so the value passed to
`find_closest_error` is `INT_MIN` itself: it is negative and is not the
magnitude 2^31, which no `int` holds. -/
theorem normalize_magnitude_counterexample :
    isInt INT_MIN ∧ normalize INT_MIN = INT_MIN ∧ normalize INT_MIN < 0
      ∧ normalize INT_MIN ≠ ((INT_MIN.natAbs : Nat) : Int) := by
  refine ⟨by decide, by decide, by decide, by decide⟩

/-- C13 (amended): for every 32-bit signed code `c` other than `INT_MIN`, the
value that `strerror` passes to `find_closest_error` and renders in
hexadecimal is the magnitude of `c`, a non-negative `int`. For `INT_MIN` the
value passed is `INT_MIN` itself. For every `c`, `INT_MIN` included, the
number rendered in hexadecimal, which is the 32-bit pattern of the value
passed, is the magnitude of `c`. -/
theorem normalize_magnitude (c : Int) (h : isInt c) :
    (c ≠ INT_MIN → normalize c = ((c.natAbs : Nat) : Int) ∧ 0 ≤ normalize c)
      ∧ (c = INT_MIN → normalize c = INT_MIN)
      ∧ toUnsigned (normalize c) = c.natAbs
      ∧ (∀ tab : List errortab, strerror tab c =
          match find_closest_error tab (normalize c) with
          | some e => snprintf 64 (fmt_found e.text (normalize c))
          | none => snprintf 64 (fmt_generic (normalize c))) := by
  have hneg := neg32_of_isInt c h
  unfold isInt INT_MIN INT_MAX at h
  refine ⟨?_, ?_, ?_, fun tab => rfl⟩
  · intro hc
    have hc2 : c ≠ -2147483648 := hc
    unfold normalize
    by_cases h0 : c < 0
    · rw [if_pos h0, hneg, if_neg hc]; omega
    · rw [if_neg h0]; omega
  · intro hc
    subst hc
    decide
  · unfold normalize
    by_cases h0 : c < 0
    · rw [if_pos h0, hneg]
      by_cases hc : c = INT_MIN
      · subst hc; decide
      · have hc2 : c ≠ -2147483648 := hc
        rw [if_neg hc]; unfold toUnsigned; omega
    · rw [if_neg h0]; unfold toUnsigned; omega

/-- Witness of C13 (amended), at `-5` and at `INT_MIN`. -/
theorem normalize_magnitude_witness :
    (normalize (-5) = 5 ∧ 0 ≤ normalize (-5))
      ∧ toUnsigned (normalize INT_MIN) = 2147483648 :=
  ⟨(normalize_magnitude (-5) (by decide)).1 (by decide),
    (normalize_magnitude INT_MIN (by decide)).2.2.1⟩

/-- C14: the render buffer holds the most recent result only. For every
registry (of descriptions that are C strings), every prior content of the
buffer and every code `b`, the text that `strerror` leaves in the buffer is
a function of the registry and `b` alone; after a call for `a` followed by a
call for `b`, the text of the buffer is the one a call for `b` alone produces
from any prior content, with nothing of the text of the call for `a` in
it. -/
theorem strerror_buf_text (tab : List errortab) (hnul : ∀ e ∈ tab, NUL ∉ e.text)
    (buf : List Char) (a b : Int) :
    cstring (strerror_buf tab buf b) = strerror tab b
      ∧ cstring (strerror_buf tab (strerror_buf tab buf a) b) = strerror tab b
      ∧ cstring (strerror_buf tab (strerror_buf tab buf a) b)
          = cstring (strerror_buf tab buf b)
      ∧ ∀ other : List Char,
          cstring (strerror_buf tab other b) = cstring (strerror_buf tab buf b) := by
  have h1 := cstring_strerror_buf tab hnul buf b
  have h2 := cstring_strerror_buf tab hnul (strerror_buf tab buf a) b
  refine ⟨h1, h2, h2.trans h1.symm, fun other => ?_⟩
  exact (cstring_strerror_buf tab hnul other b).trans h1.symm

/-- Witness of C14: a call for 0, whose text has 21 characters, followed by a
call for 5, whose text has 16 characters. -/
theorem strerror_buf_text_witness :
    cstring (strerror_buf [⟨0, "No error".toList⟩]
        (strerror_buf [⟨0, "No error".toList⟩] (List.replicate 64 'z') 0) 5)
      = "Error 0x00000005".toList := by
  have h := strerror_buf_text [⟨0, "No error".toList⟩] (by decide) (List.replicate 64 'z') 0 5
  exact h.2.1.trans (by decide)

/-! ## Claims on the third lookup and on bit 31 -/

/-- C15: when no entry passes the test of tier 1 or of tier 2,
`find_closest_error` returns exactly the first entry `e` in storage order with
`(e.errno & 0xffff00ff) = (c & 0x000000ff)`, and no match when there is none.
This equality says that the bits [31:16] of the entry are zero and its bits
[7:0] are those of `c`; it lays no condition on the class bits [15:8]. -/
theorem find_closest_error_third (tab : List errortab) (c : Int)
    (h1 : ∀ e ∈ tab, low_bits 31 e.errno ≠ low_bits 31 c)
    (h2 : ∀ e ∈ tab, low_bits 16 e.errno ≠ low_bits 16 c) :
    (find_closest_error tab c = none ↔
        ∀ e ∈ tab, and32 e.errno (toSigned 0xffff00ff) ≠ and32 c 0x000000ff)
      ∧ ((∃ x ∈ tab, and32 x.errno (toSigned 0xffff00ff) = and32 c 0x000000ff) →
          ∃ e, find_closest_error tab c = some e)
      ∧ (∀ e, find_closest_error tab c = some e →
          first_with
              (fun x => and32 x.errno (toSigned 0xffff00ff) = and32 c 0x000000ff) tab e
            ∧ high_half e.errno = 0 ∧ low_bits 8 e.errno = low_bits 8 c)
      ∧ (∀ x : errortab, and32 x.errno (toSigned 0xffff00ff) = and32 c 0x000000ff
          ↔ high_half x.errno = 0 ∧ low_bits 8 x.errno = low_bits 8 c) := by
  have s1 : find_error tab c 0x7fffffff = none :=
    (find_error_eq_none tab _ _).2 (fun e he hm => h1 e he ((mask_eq_exact e _).1 hm))
  have s2 : find_error tab c 0x0000ffff = none :=
    (find_error_eq_none tab _ _).2 (fun e he hm => h2 e he ((mask_eq_class e _).1 hm))
  have h3 := find_closest_error_tier3 tab c s1 s2
  refine ⟨?_, ?_, ?_, fun x => pxenv_and_iff_bits x c⟩
  · rw [h3, find_error_eq_none]
    constructor
    · intro h e he q
      exact h e he ((pxenv_and_iff e c).1 q)
    · intro h e he q
      exact h e he ((pxenv_and_iff e c).2 q)
  · rintro ⟨x, hx, hxc⟩
    obtain ⟨e, he, _⟩ := find_error_of_exists tab (and32 c 0x000000ff) (toSigned 0xffff00ff)
      ⟨x, hx, (pxenv_and_iff x c).1 hxc⟩
    exact ⟨e, by rw [h3, he]⟩
  · intro e he
    rw [h3] at he
    have hf := first_with_congr (fun y => (pxenv_and_iff y c).symm) (find_error_some tab _ _ e he)
    exact ⟨hf, (pxenv_and_iff_bits e c).1 hf.choose_spec.2.1⟩

/-- Witness of C15: for the code `0x30305` the entry `0x0205`, of another
class, is returned, and not the earlier entry `0x10005`. -/
theorem find_closest_error_third_witness :
    find_closest_error [⟨0x10005, ['A']⟩, ⟨0x0205, ['B']⟩, ⟨0x05, ['C']⟩] 0x30305
        = some ⟨0x0205, ['B']⟩
      ∧ first_with (fun x => and32 x.errno (toSigned 0xffff00ff) = and32 0x30305 0x000000ff)
          [⟨0x10005, ['A']⟩, ⟨0x0205, ['B']⟩, ⟨0x05, ['C']⟩] ⟨0x0205, ['B']⟩ :=
  ⟨by decide,
    ((find_closest_error_third [⟨0x10005, ['A']⟩, ⟨0x0205, ['B']⟩, ⟨0x05, ['C']⟩] 0x30305
      (by decide) (by decide)).2.2.1 ⟨0x0205, ['B']⟩ (by decide)).1⟩

/-- C16: `find_closest_error` ignores bit 31. For every registry and code `c`
it returns the same result for `c` and for `c ^ 0x80000000`; an entry whose
code differs from `c` in bit 31 only passes the test of tier 1, and is
returned when no entry before it does (so when it is stored first). With the
entry `(0, "No error")` first, the code `0x80000000` resolves to it. -/
theorem find_closest_error_bit31 (tab : List errortab) (c : Int) :
    find_closest_error tab c = find_closest_error tab (xor32 c (toSigned 0x80000000))
      ∧ (∀ e : errortab, e.errno = xor32 c (toSigned 0x80000000) →
          mask_eq e c 0x7fffffff ∧ low_bits 31 e.errno = low_bits 31 c)
      ∧ (∀ e, first_with (fun x => low_bits 31 x.errno = low_bits 31 c) tab e →
          find_closest_error tab c = some e)
      ∧ (∀ (e : errortab) (rest : List errortab), e.errno = xor32 c (toSigned 0x80000000) →
          find_closest_error (e :: rest) c = some e)
      ∧ (∀ rest : List errortab,
          find_closest_error (⟨0, "No error".toList⟩ :: rest) (toSigned 0x80000000)
              = some ⟨0, "No error".toList⟩
            ∧ strerror (⟨0, "No error".toList⟩ :: rest) (toSigned 0x80000000)
              = "No error (0x80000000)".toList) := by
  have hbit : ∀ e : errortab, e.errno = xor32 c (toSigned 0x80000000) →
      mask_eq e c 0x7fffffff := by
    intro e he
    rw [mask_eq_exact, he]
    exact low_bits_xor_bit31 c 31 (Nat.le_refl _)
  have hhead : ∀ (e : errortab) (rest : List errortab) (d : Int), mask_eq e d 0x7fffffff →
      find_closest_error (e :: rest) d = some e := by
    intro e rest d hm
    apply find_closest_error_tier1
    unfold find_error
    rw [if_pos hm]
  refine ⟨?_, ?_, ?_, ?_, ?_⟩
  · have e1 : find_error tab c 0x7fffffff
        = find_error tab (xor32 c (toSigned 0x80000000)) 0x7fffffff :=
      find_error_congr tab _ _ _ _ (fun e => by
        rw [mask_eq_exact, mask_eq_exact, low_bits_xor_bit31 c 31 (Nat.le_refl _)])
    have e2 : find_error tab c 0x0000ffff
        = find_error tab (xor32 c (toSigned 0x80000000)) 0x0000ffff :=
      find_error_congr tab _ _ _ _ (fun e => by
        rw [mask_eq_class, mask_eq_class, low_bits_xor_bit31 c 16 (by decide)])
    have e3 : find_error tab (and32 c 0x000000ff) (toSigned 0xffff00ff)
        = find_error tab (and32 (xor32 c (toSigned 0x80000000)) 0x000000ff)
            (toSigned 0xffff00ff) :=
      find_error_congr tab _ _ _ _ (fun e => by
        rw [mask_eq_pxenv, mask_eq_pxenv, low_bits_xor_bit31 c 8 (by decide)])
    unfold find_closest_error
    rw [e1, e2, e3]
  · intro e he
    exact ⟨hbit e he, (mask_eq_exact e c).1 (hbit e he)⟩
  · intro e hf
    exact find_closest_error_tier1 tab c e
      (find_error_of_first tab c _ e (first_with_congr (fun y => (mask_eq_exact y c).symm) hf))
  · intro e rest he
    exact hhead e rest c (hbit e he)
  · intro rest
    have hfound := hhead ⟨0, "No error".toList⟩ rest (toSigned 0x80000000) (by decide)
    have hnorm : normalize (toSigned 0x80000000) = toSigned 0x80000000 := by decide
    refine ⟨hfound, ?_⟩
    rw [strerror_of_some _ _ _ (by rw [hnorm]; exact hfound), hnorm]
    decide

/-- C17: for every registry that contains an entry of code 0 and every code
`c` whose low 8 bits are zero, `find_closest_error` returns an entry, for `c`
and for its normalized value, so that `strerror` takes the branch of the found
entry and its text is never a generic `Error` followed by a hexadecimal; when
no entry passes the test of tier 1 or of tier 2, the entry returned is the
first one whose code has the bits [31:16] and [7:0] all zero. -/
theorem strerror_zero_entry (tab : List errortab) (c : Int)
    (h0 : ∃ e ∈ tab, e.errno = 0) (hc : low_bits 8 c = 0) :
    (∃ e, find_closest_error tab c = some e)
      ∧ (∃ e, find_closest_error tab (normalize c) = some e
          ∧ strerror tab c = snprintf 64 (fmt_found e.text (normalize c)))
      ∧ (∀ m : Int, strerror tab c ≠ "Error ".toList ++ fmt_hex (toUnsigned m))
      ∧ ((∀ e ∈ tab, low_bits 31 e.errno ≠ low_bits 31 c) →
          (∀ e ∈ tab, low_bits 16 e.errno ≠ low_bits 16 c) →
          ∃ e, find_closest_error tab c = some e
            ∧ first_with (fun x => high_half x.errno = 0 ∧ low_bits 8 x.errno = 0) tab e) := by
  have hfound := find_closest_error_of_zero tab c h0 hc
  obtain ⟨f, hf⟩ := find_closest_error_of_zero tab (normalize c) h0 (low_bits_normalize c hc)
  have hs := strerror_of_some tab c f hf
  refine ⟨hfound, ⟨f, hf, hs⟩, ?_, ?_⟩
  · intro m
    rw [hs]
    exact snprintf_found_ne_generic f.text (normalize c) m
  · intro h1 h2
    have s1 : find_error tab c 0x7fffffff = none :=
      (find_error_eq_none tab _ _).2 (fun e he hm => h1 e he ((mask_eq_exact e _).1 hm))
    have s2 : find_error tab c 0x0000ffff = none :=
      (find_error_eq_none tab _ _).2 (fun e he hm => h2 e he ((mask_eq_class e _).1 hm))
    obtain ⟨e, he⟩ := hfound
    refine ⟨e, he, ?_⟩
    rw [find_closest_error_tier3 tab c s1 s2] at he
    refine first_with_congr (fun y => ?_) (find_error_some tab _ _ e he)
    rw [mask_eq_pxenv, hc]
    exact And.comm

/-- Witness of C17: with the entries 0 and `0x2c`, the code `0x12345600`
resolves to the entry 0. -/
theorem strerror_zero_entry_witness :
    strerror [⟨0x2c, "Out of memory".toList⟩, ⟨0, "No error".toList⟩] 0x12345600
        = "No error (0x12345600)".toList
      ∧ strerror [⟨0x2c, "Out of memory".toList⟩, ⟨0, "No error".toList⟩] 0x12345600
        ≠ "Error ".toList ++ fmt_hex (toUnsigned 0x12345600) :=
  ⟨by decide,
    (strerror_zero_entry [⟨0x2c, "Out of memory".toList⟩, ⟨0, "No error".toList⟩] 0x12345600
      (by decide) (by decide)).2.2.1 0x12345600⟩

end Strerror
